import Mathlib

/-!
Shallow embedding of the MFIButton library (src/MFIButton.h, src/MFIButton.cpp):
a debouncing button state machine with click-sequence accumulation, chained
long-press thresholds, and a single process-wide sorted queue of one-shot timer
entries driving deferred checks.

Machine integers are modelled as `Nat` with explicit reductions where the C++
performs narrowing arithmetic: `unsigned long` (the 32-bit millis clock) is
reduced mod 2^32 at subtraction/addition, `uint16_t` mod 2^16, `uint8_t`
mod 2^8.  Callbacks (C function pointers) are modelled as opaque numeric
identifiers; invoking a callback is modelled by logging an `Event` carrying the
callback identifier, the event type and the event value.  The model covers one
started button (the per-button handler logic of `pin_interrupt_handler_` and
all timer entries, which in the C++ carry a back pointer to their button, here
implicitly refer to that button).
-/

def U32 : Nat := 4294967296

def U16 : Nat := 65536

/-- Wrap-around subtraction of two `unsigned long` (32-bit) values, as produced
by `a - b` in C on the 32-bit millis clock. -/
def sub32 (a b : Nat) : Nat := (a % U32 + (U32 - b % U32)) % U32

/-- Wrap-around addition of `unsigned long` (32-bit) values. -/
def add32 (a b : Nat) : Nat := (a + b) % U32

/-- Wrap-around subtraction of `uint16_t` values, as in
`next_long_press->duration - timer->data.long_press->duration`. -/
def sub16 (a b : Nat) : Nat := (a % U16 + (U16 - b % U16)) % U16

/-- The argument passed to the external one-shot timer callback
`set_timer_(timer->trigger_time - now)`: an `unsigned long` difference
implicitly narrowed to the `uint16_t` parameter of `timer_callback_t`. -/
def armArg (trigger now : Nat) : Nat := sub32 trigger now % U16

/-- One registered click-sequence handler (`struct sequence_t_`):
a click count (`uint8_t clicks`) and a callback identifier. -/
structure SeqHandler where
  clicks : Nat
  callback : Nat
deriving DecidableEq

/-- One registered long-press handler (`struct long_press_t_`):
a duration (`uint16_t duration`) and a callback identifier. -/
structure LPHandler where
  duration : Nat
  callback : Nat
deriving DecidableEq, BEq

/-- `SLIST_NEXT(x, entries)` on a singly linked list holding `x`: the element
following the (first) occurrence of `x`, if any. -/
def slistNext [BEq α] (x : α) : List α → Option α
  | [] => none
  | a :: rest => if a == x then rest.head? else slistNext x rest

/-- The per-button mutable state of `class MFIButton` (MFIButton.h).
`last_state` is the last recorded polarity-corrected level;
the handler lists are kept in ascending key order by the registration code. -/
structure Button where
  inverted : Bool
  pullup : Bool
  last_state : Bool
  longest_sequence : Nat
  sequence_clicks : Nat
  longest_long_press : Nat
  debounce_time : Nat
  sequence_delay : Nat
  last_press_time : Nat
  last_release_time : Nat
  sequence_handlers : List SeqHandler
  long_press_handlers : List LPHandler
  on_press : Option Nat
  on_release : Option Nat
deriving DecidableEq

/-- A freshly constructed button: the constructor `MFIButton(pin, pullup,
inverted)` plus the in-class field initializers (debounce 35, sequence delay
250, counters and timestamps 0, empty handler lists, no press/release
callbacks).  `ls` stands for `last_state_`, which `begin()` initializes from
the pin before the button can see any event. -/
def mkButton (inverted pullup ls : Bool) : Button :=
  { inverted := inverted
    pullup := pullup
    last_state := ls
    longest_sequence := 0
    sequence_clicks := 0
    longest_long_press := 0
    debounce_time := 35
    sequence_delay := 250
    last_press_time := 0
    last_release_time := 0
    sequence_handlers := []
    long_press_handlers := []
    on_press := none
    on_release := none }

/-- Kinds of events delivered to callbacks (`MFIButtonEvent::Type`; `CLICK` is
declared in the header but never emitted by the implementation). -/
inductive EventType where
  | press
  | release
  | click
  | longPress
  | sequence
deriving DecidableEq

/-- A callback invocation: `callback(MFIButtonEvent(etype, this, value))`. -/
structure Event where
  etype : EventType
  value : Nat
  callback : Nat
deriving DecidableEq

/-- Payload of a timer entry (`timer_t_::type` together with the union
`timer_t_::data`): a long-press check referencing the handler under test, or a
sequence-resolution check carrying the snapshotted release time. -/
inductive TimerData where
  | longPress (lp : LPHandler)
  | sequence (release_time : Nat)
deriving DecidableEq

/-- A scheduled one-shot deferred check (`struct timer_t_`).  The C++ entry
also carries a back pointer to its owning button; the model has a single
started button, which every entry implicitly references. -/
structure TimerEntry where
  trigger_time : Nat
  data : TimerData
deriving DecidableEq

/-- The whole system state: the one started button, the global ordered timer
collection `timers_`, the log of arguments passed to the external one-shot
timer callback `set_timer_` (newest first), and the log of callback
invocations (newest first). -/
structure Sys where
  button : Button
  timers : List TimerEntry
  armLog : List Nat
  events : List Event
deriving DecidableEq

/-- Push an optional `set_timer_` call onto the arm log. -/
def pushArm (arm : Option Nat) (al : List Nat) : List Nat :=
  match arm with
  | some d => d :: al
  | none => al

/-- The body of the `TAILQ_FOREACH` insertion walk of `insert_timer_` past the
first element: insert before the first entry with a strictly greater trigger
time, else append at the tail. -/
def insertAux (timer : TimerEntry) : List TimerEntry → List TimerEntry
  | [] => [timer]
  | t :: rest =>
    if timer.trigger_time < t.trigger_time then timer :: t :: rest
    else t :: insertAux timer rest

/-- `MFIButton::insert_timer_(timer, now)`: insert into the global collection
preserving ascending trigger-time order (strict comparison, so equal trigger
times land after existing peers), and call `set_timer_(trigger_time - now)`
exactly when the new entry ends up at the head (empty list, or inserted before
the previous first element).  Returns the new collection and the optional
`set_timer_` argument. -/
def insert_timer (timer : TimerEntry) (now : Nat) (ts : List TimerEntry) :
    List TimerEntry × Option Nat :=
  match ts with
  | [] => ([timer], some (armArg timer.trigger_time now))
  | t :: rest =>
    if timer.trigger_time < t.trigger_time then
      (timer :: t :: rest, some (armArg timer.trigger_time now))
    else
      (t :: insertAux timer rest, none)

/-- Schedule a timer entry on the system state: `insert_timer_` plus recording
the `set_timer_` side effect. -/
def scheduleTimer (te : TimerEntry) (now : Nat) (s : Sys) : Sys :=
  let p := insert_timer te now s.timers
  { s with timers := p.1, armLog := pushArm p.2 s.armLog }

/-- `MFIButton::digital_read_()`: the polarity-corrected logical level.
`rawHigh` stands for `digitalRead(pin_) == HIGH`. -/
def digital_read (inverted : Bool) (rawHigh : Bool) : Bool :=
  if inverted then rawHigh = false else rawHigh = true

/-- `MFIButton::send_press_release_(state)`: fire the press callback on a
transition to pressed (`state != true`) and the release callback otherwise,
when one is registered. -/
def send_press_release (state : Bool) (b : Button) (es : List Event) :
    List Event :=
  if state ≠ true then
    match b.on_press with
    | some cb => ⟨EventType.press, 0, cb⟩ :: es
    | none => es
  else
    match b.on_release with
    | some cb => ⟨EventType.release, 0, cb⟩ :: es
    | none => es

/-- `MFIButton::send_sequence_(clicks)`: scan the sequence handlers in list
order for an exact click-count match, fire its callback if found, then reset
the click counter to zero in either case. -/
def send_sequence (clicks : Nat) (b : Button) (es : List Event) :
    Button × List Event :=
  let es' :=
    match b.sequence_handlers.find? (fun h => h.clicks == clicks) with
    | some h => ⟨EventType.sequence, clicks, h.callback⟩ :: es
    | none => es
  ({ b with sequence_clicks := 0 }, es')

/-- `MFIButton::check_click_release_(timer)`: a SEQUENCE timer entry fired.
If a newer press has happened since the snapshotted release, do nothing;
otherwise send the sequence event for the current click count. -/
def check_click_release (release_time : Nat) (b : Button) (es : List Event) :
    Button × List Event :=
  if b.last_press_time > release_time then (b, es)
  else send_sequence b.sequence_clicks b es

/-- `MFIButton::check_long_press_(timer, now)`: a LONG_PRESS timer entry
fired.  If the button has not been released since the press, fire the
long-press callback with the threshold duration as value, reset the click
counter, and if a next-longer handler follows in the list, produce a new
LONG_PRESS entry for `now + (next.duration - current.duration)` (the entry is
inserted into the global collection by the caller-side scheduling step).
If the button was released, do nothing. -/
def check_long_press (lp : LPHandler) (now : Nat) (b : Button)
    (es : List Event) : Button × List Event × Option TimerEntry :=
  if b.last_release_time < b.last_press_time then
    let es' : List Event := ⟨EventType.longPress, lp.duration, lp.callback⟩ :: es
    let b' : Button := { b with sequence_clicks := 0 }
    match slistNext lp b.long_press_handlers with
    | some nxt =>
      (b', es',
        some ⟨add32 now (sub16 nxt.duration lp.duration), TimerData.longPress nxt⟩)
    | none => (b', es', none)
  else (b, es, none)

/-- Dispatch of an expired timer entry inside `timerInterruptHandler`
(the `switch (timer->type)`), returning the updated button, the event log and
the entry newly scheduled by the handler, if any. -/
def dispatchTimer (e : TimerEntry) (now : Nat) (b : Button)
    (es : List Event) : Button × List Event × Option TimerEntry :=
  match e.data with
  | TimerData.sequence rt =>
    let p := check_click_release rt b es
    (p.1, p.2, none)
  | TimerData.longPress lp => check_long_press lp now b es

/-- Re-split of the global timer list around the iteration cursor of
`TAILQ_FOREACH_SAFE` after a fired handler called `insert_timer_` mid-loop.
`done` is the part of the list strictly before the cursor (the saved `tmp`
pointer), `rest` the cursor suffix.  The C++ insertion walks the whole global
list `done ++ rest` from its head; a node inserted before the cursor node
(inside `done`, or via `TAILQ_INSERT_BEFORE` on the cursor itself, or at the
tail of an empty suffix) is never visited by the remaining iteration, while a
node inserted strictly inside the suffix is. -/
def cursorInsert (te : TimerEntry) (done rest : List TimerEntry) :
    List TimerEntry × List TimerEntry :=
  if done.any (fun x => te.trigger_time < x.trigger_time) then
    (insertAux te done, rest)
  else
    match rest with
    | [] => (done ++ [te], [])
    | t :: rs =>
      if te.trigger_time < t.trigger_time then (done ++ [te], t :: rs)
      else (done, t :: insertAux te rs)

/-- The `TAILQ_FOREACH_SAFE` loop of `MFIButton::timerInterruptHandler`:
process expired entries from the front; each processed entry is removed,
dispatched (possibly inserting a new entry into the global list, skipped by
the iteration when it lands before the saved cursor), and the loop stops at
the first entry still in the future.  Returns the final global list, button,
event log, arm log, and the final value of the loop variable `timer`
(`none` when the iteration exhausted the list), whose trigger time the
handler epilogue re-arms.  `fuel` bounds the recursion; the caller supplies
more fuel than the loop can consume. -/
def timerLoop (now : Nat) :
    Nat → List TimerEntry → List TimerEntry → Button → List Event →
    List Nat → List TimerEntry × Button × List Event × List Nat × Option TimerEntry
  | _, done, [], b, es, al => (done, b, es, al, none)
  | 0, done, e :: rs, b, es, al => (done ++ e :: rs, b, es, al, none)
  | fuel + 1, done, e :: rs, b, es, al =>
    if now ≥ e.trigger_time then
      let d := dispatchTimer e now b es
      match d.2.2 with
      | none => timerLoop now fuel done rs d.1 d.2.1 al
      | some te =>
        let arm := (insert_timer te now (done ++ rs)).2
        let p := cursorInsert te done rs
        timerLoop now fuel p.1 p.2 d.1 d.2.1 (pushArm arm al)
    else (done ++ e :: rs, b, es, al, some e)

/-- `MFIButton::timerInterruptHandler()`: run the expiry loop over the global
timer collection, then, if the loop variable still points at an entry, call
`set_timer_(timer->trigger_time - now)`. -/
def timerInterruptHandler (now : Nat) (s : Sys) : Sys :=
  let r := timerLoop now (2 * s.timers.length + 1) [] s.timers s.button
    s.events s.armLog
  { button := r.2.1
    timers := r.1
    events := r.2.2.1
    armLog :=
      match r.2.2.2.2 with
      | some e => armArg e.trigger_time now :: r.2.2.2.1
      | none => r.2.2.2.1 }

/-- `MFIButton::add_click_release_timer_(now)`: schedule a SEQUENCE entry for
`now + sequence_delay_` snapshotting `now` as the release time. -/
def add_click_release_timer (now : Nat) (s : Sys) : Sys :=
  scheduleTimer ⟨add32 now s.button.sequence_delay, TimerData.sequence now⟩ now s

/-- `MFIButton::set_long_press_timer_(long_press, delay, now)`: schedule a
LONG_PRESS entry for `now + delay` referencing the given handler. -/
def set_long_press_timer (lp : LPHandler) (delay now : Nat) (s : Sys) : Sys :=
  scheduleTimer ⟨add32 now delay, TimerData.longPress lp⟩ now s

/-- The release classification of `pin_interrupt_handler_` (lines 72-89):
mid-sequence (`sequence_clicks_ > 1`) is always a click; with no long-press
handlers it is a click; otherwise it is a click exactly when the `uint16_t`
press duration `now - last_press_time_` is strictly below the shortest
registered long-press duration. -/
def classify_release (b : Button) (now : Nat) : Bool :=
  if b.sequence_clicks > 1 then true
  else
    match b.long_press_handlers with
    | [] => true
    | lp :: _ => decide (sub32 now b.last_press_time % U16 < lp.duration)

/-- The per-button body of `MFIButton::pin_interrupt_handler_()`: debounce
guard, polarity-corrected read-and-compare, press/release callback, and on
press: arm the shortest long-press check, bump the click counter, record the
press time; on release: classify click vs long-press, emit or defer the
sequence resolution, record the release time. -/
def pin_interrupt_step (now : Nat) (rawHigh : Bool) (s : Sys) : Sys :=
  let b := s.button
  if sub32 now b.last_press_time < b.debounce_time ∨
      sub32 now b.last_release_time < b.debounce_time then s
  else
    let state := digital_read b.inverted rawHigh
    if state = b.last_state then s
    else
      let s1 : Sys := { s with events := send_press_release state b s.events }
      if state ≠ true then
        let s2 :=
          match b.long_press_handlers with
          | [] => s1
          | lp :: _ => set_long_press_timer lp lp.duration now s1
        { s2 with
          button :=
            { s2.button with
              sequence_clicks := (s2.button.sequence_clicks + 1) % 256
              last_press_time := now
              last_state := state } }
      else
        let s2 :=
          if classify_release b now then
            if b.sequence_clicks = b.longest_sequence then
              let p := send_sequence b.sequence_clicks s1.button s1.events
              { s1 with button := p.1, events := p.2 }
            else add_click_release_timer now s1
          else s1
        { s2 with
          button :=
            { s2.button with
              last_release_time := now
              last_state := state } }

/-- The insertion walk of `MFIButton::onSequence(clicks, callback)`: insert
before the first handler with a strictly greater click count, replace the
callback in place on an equal click count, append at the tail otherwise. -/
def insertSeq (clicks cb : Nat) : List SeqHandler → List SeqHandler
  | [] => [⟨clicks, cb⟩]
  | s :: rest =>
    if clicks < s.clicks then ⟨clicks, cb⟩ :: s :: rest
    else if clicks = s.clicks then ⟨clicks, cb⟩ :: rest
    else s :: insertSeq clicks cb rest

/-- `MFIButton::onSequence(clicks, callback)`: sorted insert/replace into the
sequence handler list (the `uint8_t` parameter reduces the click count mod
2^8), then raise `longest_sequence_` if the new count exceeds it. -/
def onSequence (clicks cb : Nat) (b : Button) : Button :=
  let c := clicks % 256
  let b' := { b with sequence_handlers := insertSeq c cb b.sequence_handlers }
  if b'.longest_sequence < c then { b' with longest_sequence := c } else b'

/-- The insertion walk of `MFIButton::onLongPress(duration, callback)`:
insert before the first handler with a strictly greater duration, replace the
callback in place on an equal duration, append at the tail otherwise. -/
def insertLP (duration cb : Nat) : List LPHandler → List LPHandler
  | [] => [⟨duration, cb⟩]
  | l :: rest =>
    if duration < l.duration then ⟨duration, cb⟩ :: l :: rest
    else if duration = l.duration then ⟨duration, cb⟩ :: rest
    else l :: insertLP duration cb rest

/-- `MFIButton::onLongPress(duration, callback)`: sorted insert/replace into
the long-press handler list (the `uint16_t` parameter reduces the duration
mod 2^16), then raise `longest_long_press_` if the new duration exceeds it. -/
def onLongPress (duration cb : Nat) (b : Button) : Button :=
  let d := duration % 65536
  let b' :=
    { b with long_press_handlers := insertLP d cb b.long_press_handlers }
  if b'.longest_long_press < d then { b' with longest_long_press := d } else b'

/-- One registration call: `onSequence` or `onLongPress` (the `onClick` and
`onDoubleClick` wrappers are `onSequence` at counts 1 and 2). -/
inductive Reg where
  | seq (clicks cb : Nat)
  | lp (duration cb : Nat)

/-- Apply a list of registration calls in order. -/
def applyRegs : List Reg → Button → Button
  | [], b => b
  | Reg.seq c cb :: rest, b => applyRegs rest (onSequence c cb b)
  | Reg.lp d cb :: rest, b => applyRegs rest (onLongPress d cb b)

/-- The process-wide registry touched by `begin()`: the `started_buttons_`
list and the set of pins an interrupt handler has been attached to
(`attachInterrupt`), both identified by pin number. -/
structure Registry where
  started : List Nat
  attached : List Nat
deriving DecidableEq

/-- `MFIButton::begin()`: configure the pin, record the initial level, assert
that the global timer callback is configured (modelled as `none` on
violation, since `assert` aborts), fail if the pin does not support
level-change interrupts (`digitalPinToInterrupt(pin) == NOT_AN_INTERRUPT`),
else register the button at the head of `started_buttons_` and attach the
interrupt handler. -/
def beginButton (pin : Nat) (timerConfigured supportsInterrupt rawHigh : Bool)
    (b : Button) (reg : Registry) : Option (Bool × Button × Registry) :=
  let b1 := { b with last_state := digital_read b.inverted rawHigh }
  if ¬ timerConfigured then none
  else if ¬ supportsInterrupt then some (false, b1, reg)
  else
    some (true, b1,
      { started := pin :: reg.started, attached := pin :: reg.attached })

/-- The shortest registered long-press duration: the head of the ascending
long-press handler list (0 when none is registered, in which case the
classification never consults it). -/
def shortestLP (b : Button) : Nat :=
  match b.long_press_handlers with
  | [] => 0
  | lp :: _ => lp.duration

/-- A debounced notification is a complete no-op on the whole system state. -/
theorem pin_step_debounced (now : Nat) (rawHigh : Bool) (s : Sys)
    (h : sub32 now s.button.last_press_time < s.button.debounce_time ∨
      sub32 now s.button.last_release_time < s.button.debounce_time) :
    pin_interrupt_step now rawHigh s = s := by
  simp only [pin_interrupt_step]
  rw [if_pos h]

/-- C4: a level-change notification arriving while
`now - last_press_time < debounce_window` or
`now - last_release_time < debounce_window` (32-bit wrap-around differences,
as computed by the code) is a complete no-op for the button: no press,
release, click, sequence or long-press event is emitted, no timer entry is
scheduled, no external arm request is made and no button field changes. -/
theorem debounce_frame (now : Nat) (rawHigh : Bool) (s : Sys)
    (h : sub32 now s.button.last_press_time < s.button.debounce_time ∨
      sub32 now s.button.last_release_time < s.button.debounce_time) :
    pin_interrupt_step now rawHigh s = s :=
  pin_step_debounced now rawHigh s h

/-- C4 witness: a concrete debounced notification (fresh button, level change
at time 10, inside the default 35-unit window) leaves the state unchanged. -/
theorem debounce_frame_witness :
    pin_interrupt_step 10 true
      { button := mkButton false true false, timers := [], armLog := [],
        events := [] } =
      { button := mkButton false true false, timers := [], armLog := [],
        events := [] } :=
  debounce_frame 10 true _ (Or.inl (by decide))

/-- C10: `last_press_time_` and `last_release_time_` initialize to 0, so on a
freshly constructed and activated button every raw level change arriving
while the monotonic clock still reads less than the default 35-unit debounce
window is discarded by the debounce guard, even though no press or release
has ever happened. -/
theorem initial_debounce_window (inv pu ls : Bool) (now : Nat) (rawHigh : Bool)
    (ts : List TimerEntry) (al : List Nat) (es : List Event) (h : now < 35) :
    pin_interrupt_step now rawHigh
      { button := mkButton inv pu ls, timers := ts, armLog := al,
        events := es } =
      { button := mkButton inv pu ls, timers := ts, armLog := al,
        events := es } := by
  apply pin_step_debounced
  left
  simp only [mkButton, sub32, U32]
  omega

/-- C10 witness: a raw level change at clock reading 20 on a fresh button is
discarded. -/
theorem initial_debounce_window_witness :
    pin_interrupt_step 20 false
      { button := mkButton true true true, timers := [], armLog := [],
        events := [] } =
      { button := mkButton true true true, timers := [], armLog := [],
        events := [] } :=
  initial_debounce_window true true true 20 false [] [] [] (by decide)

/-- The two long-press handlers of the C2 scenario: thresholds 100 and 150. -/
def lpC2a : LPHandler := ⟨100, 7⟩

def lpC2b : LPHandler := ⟨150, 8⟩

/-- The button of the C2 scenario: pressed (press at 60, last release at 10),
long-press handlers at 100 and 150, so the pending check for threshold 100
will fire and chain-schedule the 150 check. -/
def bC2 : Button :=
  { inverted := false, pullup := true, last_state := false
    longest_sequence := 0, sequence_clicks := 2, longest_long_press := 150
    debounce_time := 35, sequence_delay := 250
    last_press_time := 60, last_release_time := 10
    sequence_handlers := [], long_press_handlers := [lpC2a, lpC2b]
    on_press := none, on_release := none }

/-- The global state of the C2 scenario: the long-press check for threshold
100 triggers at 160 (armed at the press at 60), and an unrelated
sequence-resolution entry (from a click released at 10) triggers at 260. -/
def sC2 : Sys :=
  { button := bC2
    timers := [⟨160, TimerData.longPress lpC2a⟩, ⟨260, TimerData.sequence 10⟩]
    armLog := []
    events := [] }

/-- C2 violation: running `timerInterruptHandler` at time 160 on `sC2` fires
the threshold-100 check, which inserts a new earliest entry triggering at 210
(and correctly arms delay 50 for it mid-loop), but the handler epilogue then
re-arms from the iteration cursor, requesting delay 100 for the entry at 260.
The delay last requested on the external timer (100) is therefore later than
the earliest entry of the collection (trigger 210, delay 50), violating the
claimed invariant. -/
theorem timer_rearm_cursor_bug :
    (timerInterruptHandler 160 sC2).armLog.head? = some 100 ∧
    (timerInterruptHandler 160 sC2).timers.map TimerEntry.trigger_time =
      [210, 260] ∧
    armArg 210 160 = 50 ∧ (100 : Nat) ≠ 50 := by decide

/-- C9: with the global timer callback configured (which `begin()` asserts:
the unconfigured case aborts, modelled as `none`), `begin()` returns `false`
exactly when the pin does not support level-change interrupts; on `false` the
registry is untouched (the button is not inserted into `started_buttons_` and
no interrupt handler is attached), on `true` the button is pushed onto the
started list and its interrupt handler attached. -/
theorem begin_activation (pin : Nat) (si rawHigh : Bool) (b : Button)
    (reg : Registry) :
    beginButton pin false si rawHigh b reg = none ∧
    (beginButton pin true si rawHigh b reg).isSome = true ∧
    (∀ ok b' reg', beginButton pin true si rawHigh b reg = some (ok, b', reg') →
      (ok = false ↔ si = false) ∧
      (ok = false → reg' = reg) ∧
      (ok = true → reg'.started = pin :: reg.started ∧
        reg'.attached = pin :: reg.attached)) := by
  refine ⟨rfl, ?_, ?_⟩
  · cases si <;> simp [beginButton]
  · intro ok b' reg' hEq
    cases si <;> simp [beginButton] at hEq <;>
      obtain ⟨h1, _, h3⟩ := hEq <;> subst h1 <;> subst h3 <;> simp

/-- C9 witness: on pin 5, an interrupt-capable pin activates and registers;
the claim's conclusions hold at this concrete input. -/
theorem begin_activation_witness :
    beginButton 5 false true true (mkButton false true false) ⟨[], []⟩ =
      none ∧
    (beginButton 5 true true true (mkButton false true false)
      ⟨[], []⟩).isSome = true ∧
    (∀ ok b' reg', beginButton 5 true true true (mkButton false true false)
        ⟨[], []⟩ = some (ok, b', reg') →
      (ok = false ↔ true = false) ∧
      (ok = false → reg' = ⟨[], []⟩) ∧
      (ok = true → reg'.started = 5 :: Registry.started ⟨[], []⟩ ∧
        reg'.attached = 5 :: Registry.attached ⟨[], []⟩)) :=
  begin_activation 5 true true (mkButton false true false) ⟨[], []⟩

/-- C1 (amended): for a release transition that passes the debounce guard,
the gesture is classified as a click iff the in-progress click counter
exceeds 1, or no long-press handler is registered, or the elapsed time
between press and release reduced modulo 2^16 (the code computes the press
duration in a `uint16_t`) is strictly below the shortest registered
long-press duration; when the classification is long-press, the release
emits no click or sequence activity (no timer scheduled, no arm request, the
only event is the release callback, and the click counter is untouched). -/
theorem release_classification (s : Sys) (now : Nat) (rawHigh : Bool)
    (hg : ¬ (sub32 now s.button.last_press_time < s.button.debounce_time ∨
      sub32 now s.button.last_release_time < s.button.debounce_time))
    (hread : digital_read s.button.inverted rawHigh = true)
    (hst : s.button.last_state = false) :
    (classify_release s.button now = true ↔
      (1 < s.button.sequence_clicks ∨ s.button.long_press_handlers = [] ∨
        sub32 now s.button.last_press_time % U16 < shortestLP s.button)) ∧
    (classify_release s.button now = false →
      (pin_interrupt_step now rawHigh s).timers = s.timers ∧
      (pin_interrupt_step now rawHigh s).armLog = s.armLog ∧
      (pin_interrupt_step now rawHigh s).events =
        send_press_release true s.button s.events ∧
      (pin_interrupt_step now rawHigh s).button.sequence_clicks =
        s.button.sequence_clicks) := by
  constructor
  · unfold classify_release shortestLP
    rcases hhs : s.button.long_press_handlers with _ | ⟨lp, rest⟩ <;>
      by_cases hc : 1 < s.button.sequence_clicks <;>
      simp [hc, hhs]
  · intro hcl
    unfold pin_interrupt_step
    rw [if_neg hg, hread, if_neg (by simp [hst]), if_neg (by simp), hcl]
    simp [hread]

/-- The button of the C1 counterexample: one in-progress click, a single
long-press handler at 1000 units, press recorded at time 100. -/
def bC1 : Button :=
  { inverted := false, pullup := true, last_state := false
    longest_sequence := 2, sequence_clicks := 1, longest_long_press := 1000
    debounce_time := 35, sequence_delay := 250
    last_press_time := 100, last_release_time := 50
    sequence_handlers := [], long_press_handlers := [⟨1000, 0⟩]
    on_press := none, on_release := none }

/-- C1 counterexample: a release at time 65636 after a press at time 100
passes the debounce guard, and the true elapsed press duration is 65536,
not shorter than the shortest registered long-press duration 1000 — yet the
code classifies the gesture as a click (the `uint16_t` press duration wraps
to 0) and schedules sequence activity (a SEQUENCE timer entry) at the
release, contradicting the claimed classification rule. -/
theorem release_classification_cex :
    classify_release bC1 65636 = true ∧
    ¬ sub32 65636 bC1.last_press_time < shortestLP bC1 ∧
    ¬ (sub32 65636 bC1.last_press_time < bC1.debounce_time ∨
      sub32 65636 bC1.last_release_time < bC1.debounce_time) ∧
    (pin_interrupt_step 65636 true
      { button := bC1, timers := [], armLog := [], events := [] }).timers ≠
      [] := by decide

/-- The system of the C1 witness: one in-progress click, a long-press
handler at 1000 units, press recorded at time 100. -/
def sC1w : Sys :=
  { button := bC1, timers := [], armLog := [], events := [] }

/-- C1 witness: the amended classification theorem instantiated at a release
at time 300 (elapsed 200, shorter than 1000: a click). -/
theorem release_classification_witness :
    (classify_release sC1w.button 300 = true ↔
      (1 < sC1w.button.sequence_clicks ∨
        sC1w.button.long_press_handlers = [] ∨
        sub32 300 sC1w.button.last_press_time % U16 <
          shortestLP sC1w.button)) ∧
    (classify_release sC1w.button 300 = false →
      (pin_interrupt_step 300 true sC1w).timers = sC1w.timers ∧
      (pin_interrupt_step 300 true sC1w).armLog = sC1w.armLog ∧
      (pin_interrupt_step 300 true sC1w).events =
        send_press_release true sC1w.button sC1w.events ∧
      (pin_interrupt_step 300 true sC1w).button.sequence_clicks =
        sC1w.button.sequence_clicks) :=
  release_classification sC1w 300 true (by decide) (by decide) (by decide)

/-- C3 (amended): when a LONG-PRESS-CHECK fires and the button has not been
released since the press that armed it, the long-press event is emitted with
the threshold duration as its value and the click counter is reset; if a
next-longer handler follows in the list, a new check is produced whose
trigger is the difference of the two thresholds after the moment the check
fires — which equals the next threshold's duration measured from the
original press moment exactly when the check fires at its own trigger time
(press + current threshold).  If the button was released, nothing happens. -/
theorem long_press_escalation (lp : LPHandler) (now : Nat) (b : Button)
    (es : List Event) :
    (¬ b.last_release_time < b.last_press_time →
      check_long_press lp now b es = (b, es, none)) ∧
    (b.last_release_time < b.last_press_time →
      (check_long_press lp now b es).1 = { b with sequence_clicks := 0 } ∧
      (check_long_press lp now b es).2.1 =
        ⟨EventType.longPress, lp.duration, lp.callback⟩ :: es ∧
      (slistNext lp b.long_press_handlers = none →
        (check_long_press lp now b es).2.2 = none) ∧
      (∀ nxt, slistNext lp b.long_press_handlers = some nxt →
        (check_long_press lp now b es).2.2 =
          some ⟨add32 now (sub16 nxt.duration lp.duration),
            TimerData.longPress nxt⟩ ∧
        (∀ p, lp.duration ≤ nxt.duration → nxt.duration < U16 →
          now = p + lp.duration → p + nxt.duration < U32 →
          add32 now (sub16 nxt.duration lp.duration) = p + nxt.duration))) := by
  constructor
  · intro h
    simp [check_long_press, h]
  · intro h
    refine ⟨?_, ?_, ?_, ?_⟩
    · rcases hn : slistNext lp b.long_press_handlers with _ | nxt <;>
        simp [check_long_press, h, hn]
    · rcases hn : slistNext lp b.long_press_handlers with _ | nxt <;>
        simp [check_long_press, h, hn]
    · intro hn
      simp [check_long_press, h, hn]
    · intro nxt hn
      refine ⟨by simp [check_long_press, h, hn], ?_⟩
      intro p h1 h2 h3 h4
      subst h3
      simp only [add32, sub16, U16, U32] at *
      omega

/-- The button of the C3 counterexample and witness: pressed at time 5 and
not released since, long-press handlers at 100 and 150. -/
def bC3 : Button :=
  { inverted := false, pullup := true, last_state := false
    longest_sequence := 0, sequence_clicks := 1, longest_long_press := 150
    debounce_time := 35, sequence_delay := 250
    last_press_time := 5, last_release_time := 0
    sequence_handlers := []
    long_press_handlers := [⟨100, 3⟩, ⟨150, 4⟩]
    on_press := none, on_release := none }

/-- C3 counterexample: the threshold-100 check armed by the press at time 5
triggers at 105, but the timer callback is only guaranteed to fire no
earlier than requested; firing it at 115 schedules the next check for
115 + 50 = 165, not at the next threshold's duration measured from the
original press moment (5 + 150 = 155), refuting the claim as stated. -/
theorem long_press_escalation_cex :
    (check_long_press ⟨100, 3⟩ 115 bC3 []).2.2 =
      some ⟨165, TimerData.longPress ⟨150, 4⟩⟩ ∧
    bC3.last_release_time < bC3.last_press_time ∧
    (165 : Nat) ≠ bC3.last_press_time + 150 := by decide

/-- C3 witness: the amended theorem instantiated at the check firing exactly
on time (now = 105 = press 5 + threshold 100), where the new check does land
at 5 + 150 = 155. -/
theorem long_press_escalation_witness :
    (¬ bC3.last_release_time < bC3.last_press_time →
      check_long_press ⟨100, 3⟩ 105 bC3 [] = (bC3, [], none)) ∧
    (bC3.last_release_time < bC3.last_press_time →
      (check_long_press ⟨100, 3⟩ 105 bC3 []).1 =
        { bC3 with sequence_clicks := 0 } ∧
      (check_long_press ⟨100, 3⟩ 105 bC3 []).2.1 =
        [⟨EventType.longPress, 100, 3⟩] ∧
      (slistNext ⟨100, 3⟩ bC3.long_press_handlers = none →
        (check_long_press ⟨100, 3⟩ 105 bC3 []).2.2 = none) ∧
      (∀ nxt, slistNext ⟨100, 3⟩ bC3.long_press_handlers = some nxt →
        (check_long_press ⟨100, 3⟩ 105 bC3 []).2.2 =
          some ⟨add32 105 (sub16 nxt.duration 100),
            TimerData.longPress nxt⟩ ∧
        (∀ p, 100 ≤ nxt.duration → nxt.duration < U16 →
          105 = p + 100 → p + nxt.duration < U32 →
          add32 105 (sub16 nxt.duration 100) = p + nxt.duration))) :=
  long_press_escalation ⟨100, 3⟩ 105 bC3 []

/-- C5: when a SEQUENCE-RESOLUTION entry fires, a press newer than the
snapshotted release timestamp makes it a silent no-op (no event, click
counter untouched); otherwise the sequence event for the current click count
is sent: the first handler matching exactly that count is invoked if one
exists, the event is silently dropped if none does, and the click counter is
reset to zero in either case. -/
theorem sequence_resolution (rt : Nat) (b : Button) (es : List Event) :
    (rt < b.last_press_time → check_click_release rt b es = (b, es)) ∧
    (¬ rt < b.last_press_time →
      (check_click_release rt b es).1 = { b with sequence_clicks := 0 } ∧
      (∀ h, b.sequence_handlers.find?
          (fun x => x.clicks == b.sequence_clicks) = some h →
        (check_click_release rt b es).2 =
          ⟨EventType.sequence, b.sequence_clicks, h.callback⟩ :: es) ∧
      (b.sequence_handlers.find?
          (fun x => x.clicks == b.sequence_clicks) = none →
        (check_click_release rt b es).2 = es)) := by
  refine ⟨?_, ?_⟩
  · intro h
    simp [check_click_release, show b.last_press_time > rt from h]
  intro h
  have hng : ¬ b.last_press_time > rt := h
  refine ⟨?_, ?_, ?_⟩
  · rcases hf : b.sequence_handlers.find?
      (fun x => x.clicks == b.sequence_clicks) with _ | hd <;>
      simp [check_click_release, send_sequence, hng, hf]
  · intro hd hf
    simp [check_click_release, send_sequence, hng, hf]
  · intro hf
    simp [check_click_release, send_sequence, hng, hf]

/-- The button of the C5 witness: two accumulated clicks with a double-click
handler registered, last press at time 40. -/
def bC5 : Button :=
  { inverted := false, pullup := true, last_state := true
    longest_sequence := 3, sequence_clicks := 2, longest_long_press := 0
    debounce_time := 35, sequence_delay := 250
    last_press_time := 40, last_release_time := 90
    sequence_handlers := [⟨1, 11⟩, ⟨2, 12⟩, ⟨3, 13⟩]
    long_press_handlers := []
    on_press := none, on_release := none }

/-- C5 witness: the resolution theorem instantiated at a snapshot release
time 90 (no newer press: 90 is not before the last press at 40), where the
double-click handler fires and the counter resets. -/
theorem sequence_resolution_witness :
    ((90 : Nat) < bC5.last_press_time →
      check_click_release 90 bC5 [] = (bC5, [])) ∧
    (¬ (90 : Nat) < bC5.last_press_time →
      (check_click_release 90 bC5 []).1 = { bC5 with sequence_clicks := 0 } ∧
      (∀ h, bC5.sequence_handlers.find?
          (fun x => x.clicks == bC5.sequence_clicks) = some h →
        (check_click_release 90 bC5 []).2 =
          [⟨EventType.sequence, bC5.sequence_clicks, h.callback⟩]) ∧
      (bC5.sequence_handlers.find?
          (fun x => x.clicks == bC5.sequence_clicks) = none →
        (check_click_release 90 bC5 []).2 = [])) :=
  sequence_resolution 90 bC5 []

/-- C6: for a release that passes the debounce guard and is classified as a
click: when the in-progress click count equals the longest registered
sequence length the sequence event is sent immediately at the release (no
timer entry scheduled, no arm request, counter reset); otherwise a
SEQUENCE-RESOLUTION entry is inserted triggering `sequence_delay` time units
after the release, with the release timestamp `now` snapshotted into it. -/
theorem click_resolution (s : Sys) (now : Nat) (rawHigh : Bool)
    (hg : ¬ (sub32 now s.button.last_press_time < s.button.debounce_time ∨
      sub32 now s.button.last_release_time < s.button.debounce_time))
    (hread : digital_read s.button.inverted rawHigh = true)
    (hst : s.button.last_state = false)
    (hclick : classify_release s.button now = true) :
    (s.button.sequence_clicks = s.button.longest_sequence →
      (pin_interrupt_step now rawHigh s).timers = s.timers ∧
      (pin_interrupt_step now rawHigh s).armLog = s.armLog ∧
      (pin_interrupt_step now rawHigh s).button.sequence_clicks = 0 ∧
      (pin_interrupt_step now rawHigh s).events =
        (send_sequence s.button.sequence_clicks s.button
          (send_press_release true s.button s.events)).2) ∧
    (s.button.sequence_clicks ≠ s.button.longest_sequence →
      (pin_interrupt_step now rawHigh s).timers =
        (insert_timer ⟨add32 now s.button.sequence_delay,
          TimerData.sequence now⟩ now s.timers).1 ∧
      (pin_interrupt_step now rawHigh s).events =
        send_press_release true s.button s.events) := by
  constructor
  · intro heq
    unfold pin_interrupt_step
    rw [if_neg hg, hread, if_neg (by simp [hst]), if_neg (by simp), hclick]
    simp [heq, send_sequence, hread]
  · intro hne
    unfold pin_interrupt_step
    rw [if_neg hg, hread, if_neg (by simp [hst]), if_neg (by simp), hclick]
    simp [hne, add_click_release_timer, scheduleTimer, hread]

/-- The system of the C6 witness: one accumulated click with a double-click
handler registered (longest sequence 2), release observed at time 300. -/
def sC6 : Sys :=
  { button :=
      { inverted := false, pullup := true, last_state := false
        longest_sequence := 2, sequence_clicks := 1, longest_long_press := 0
        debounce_time := 35, sequence_delay := 250
        last_press_time := 200, last_release_time := 100
        sequence_handlers := [⟨1, 21⟩, ⟨2, 22⟩], long_press_handlers := []
        on_press := none, on_release := some 30 }
    timers := [], armLog := [], events := [] }

/-- C6 witness: the click-resolution theorem instantiated at a release at
time 300 with click count 1 below the longest sequence 2, so a
SEQUENCE-RESOLUTION entry for 300 + 250 = 550 snapshotting release time 300
is scheduled. -/
theorem click_resolution_witness :
    (sC6.button.sequence_clicks = sC6.button.longest_sequence →
      (pin_interrupt_step 300 true sC6).timers = sC6.timers ∧
      (pin_interrupt_step 300 true sC6).armLog = sC6.armLog ∧
      (pin_interrupt_step 300 true sC6).button.sequence_clicks = 0 ∧
      (pin_interrupt_step 300 true sC6).events =
        (send_sequence sC6.button.sequence_clicks sC6.button
          (send_press_release true sC6.button sC6.events)).2) ∧
    (sC6.button.sequence_clicks ≠ sC6.button.longest_sequence →
      (pin_interrupt_step 300 true sC6).timers =
        (insert_timer ⟨add32 300 sC6.button.sequence_delay,
          TimerData.sequence 300⟩ 300 sC6.timers).1 ∧
      (pin_interrupt_step 300 true sC6).events =
        send_press_release true sC6.button sC6.events) :=
  click_resolution sC6 300 true (by decide) (by decide) (by decide) (by decide)

/-- The insertion walk places the new entry exactly after the longest prefix
of entries whose trigger time is not greater: the stable sorted-insert
position. -/
theorem insertAux_takeWhile (te : TimerEntry) : ∀ ts : List TimerEntry,
    insertAux te ts =
      ts.takeWhile (fun t => t.trigger_time ≤ te.trigger_time) ++
        te :: ts.dropWhile (fun t => t.trigger_time ≤ te.trigger_time)
  | [] => rfl
  | t :: rest => by
    by_cases h : te.trigger_time < t.trigger_time
    · simp [insertAux, h, List.takeWhile_cons, List.dropWhile_cons,
        Nat.not_le.mpr h]
    · simp [insertAux, h, List.takeWhile_cons, List.dropWhile_cons,
        Nat.not_lt.mp h, insertAux_takeWhile te rest]

/-- Members of the insertion result are the new entry or old members. -/
theorem mem_insertAux {x te : TimerEntry} {ts : List TimerEntry}
    (h : x ∈ insertAux te ts) : x = te ∨ x ∈ ts := by
  rw [insertAux_takeWhile] at h
  simp only [List.mem_append, List.mem_cons] at h
  rcases h with h | h | h
  · exact Or.inr ((List.takeWhile_prefix _).subset h)
  · exact Or.inl h
  · exact Or.inr ((List.dropWhile_suffix _).subset h)

/-- The insertion walk preserves ascending trigger-time order. -/
theorem insertAux_pairwise (te : TimerEntry) : ∀ ts : List TimerEntry,
    List.Pairwise (fun a b => a.trigger_time ≤ b.trigger_time) ts →
    List.Pairwise (fun a b => a.trigger_time ≤ b.trigger_time)
      (insertAux te ts)
  | [], _ => by simp [insertAux]
  | t :: rest, hp => by
    rcases List.pairwise_cons.mp hp with ⟨hall, hrest⟩
    by_cases h : te.trigger_time < t.trigger_time
    · simp only [insertAux, if_pos h]
      refine List.pairwise_cons.mpr ⟨?_, hp⟩
      intro x hx
      rcases List.mem_cons.mp hx with rfl | hx'
      · exact Nat.le_of_lt h
      · exact Nat.le_trans (Nat.le_of_lt h) (hall x hx')
    · simp only [insertAux, if_neg h]
      refine List.pairwise_cons.mpr ⟨?_, insertAux_pairwise te rest hrest⟩
      intro x hx
      rcases mem_insertAux hx with rfl | hx'
      · exact Nat.not_lt.mp h
      · exact hall x hx'

/-- C7: `insert_timer_` inserts the entry at the stable position preserving
ascending trigger-time order (equal trigger times go after the existing
equal-time entries), keeps the collection sorted, and calls the external arm
callback with `trigger_time - now` exactly when the inserted entry becomes
the new earliest entry (empty collection, or trigger strictly below the
previous head's). -/
theorem timer_insert_sorted (te : TimerEntry) (now : Nat)
    (ts : List TimerEntry)
    (hs : List.Pairwise (fun a b => a.trigger_time ≤ b.trigger_time) ts) :
    (insert_timer te now ts).1 =
      ts.takeWhile (fun t => t.trigger_time ≤ te.trigger_time) ++
        te :: ts.dropWhile (fun t => t.trigger_time ≤ te.trigger_time) ∧
    List.Pairwise (fun a b => a.trigger_time ≤ b.trigger_time)
      (insert_timer te now ts).1 ∧
    ((insert_timer te now ts).2 = some (armArg te.trigger_time now) ↔
      ts.takeWhile (fun t => t.trigger_time ≤ te.trigger_time) = []) ∧
    ((insert_timer te now ts).2 = none ∨
      (insert_timer te now ts).2 = some (armArg te.trigger_time now)) := by
  have hfst : (insert_timer te now ts).1 = insertAux te ts := by
    rcases ts with _ | ⟨t, rest⟩
    · rfl
    · by_cases h : te.trigger_time < t.trigger_time <;>
        simp [insert_timer, insertAux, h]
  refine ⟨?_, ?_, ?_, ?_⟩
  · rw [hfst, insertAux_takeWhile]
  · rw [hfst]
    exact insertAux_pairwise te ts hs
  · rcases ts with _ | ⟨t, rest⟩
    · simp [insert_timer]
    · by_cases h : te.trigger_time < t.trigger_time
      · have h' : ¬ t.trigger_time ≤ te.trigger_time := Nat.not_le.mpr h
        simp [insert_timer, h, List.takeWhile_cons, h']
      · have h' : t.trigger_time ≤ te.trigger_time := Nat.not_lt.mp h
        simp [insert_timer, h, List.takeWhile_cons, h']
  · rcases ts with _ | ⟨t, rest⟩
    · simp [insert_timer]
    · by_cases h : te.trigger_time < t.trigger_time <;>
        simp [insert_timer, h]

/-- The timer list of the C7 witness: pending entries at 100 and 200. -/
def tsC7 : List TimerEntry :=
  [⟨100, TimerData.sequence 10⟩, ⟨200, TimerData.sequence 20⟩]

/-- The entry of the C7 witness: triggers at 150, landing between the two. -/
def teC7 : TimerEntry := ⟨150, TimerData.longPress ⟨500, 2⟩⟩

/-- C7 witness: the insertion theorem instantiated at inserting a trigger-150
entry into the [100, 200] collection at time 40 (no arm, not the earliest). -/
theorem timer_insert_sorted_witness :
    (insert_timer teC7 40 tsC7).1 =
      tsC7.takeWhile (fun t => t.trigger_time ≤ teC7.trigger_time) ++
        teC7 :: tsC7.dropWhile (fun t => t.trigger_time ≤ teC7.trigger_time) ∧
    List.Pairwise (fun a b => a.trigger_time ≤ b.trigger_time)
      (insert_timer teC7 40 tsC7).1 ∧
    ((insert_timer teC7 40 tsC7).2 = some (armArg teC7.trigger_time 40) ↔
      tsC7.takeWhile (fun t => t.trigger_time ≤ teC7.trigger_time) = []) ∧
    ((insert_timer teC7 40 tsC7).2 = none ∨
      (insert_timer teC7 40 tsC7).2 = some (armArg teC7.trigger_time 40)) :=
  timer_insert_sorted teC7 40 tsC7 (by decide)

/-- The click-count keys of a sequence handler list, in list order. -/
def seqKeys (hs : List SeqHandler) : List Nat := hs.map SeqHandler.clicks

/-- The duration keys of a long-press handler list, in list order. -/
def lpKeys (hs : List LPHandler) : List Nat := hs.map LPHandler.duration

/-- The key-level shape shared by both registration insertion walks: insert
before the first strictly greater key, collapse onto an equal key, append at
the tail. -/
def insertKey (c : Nat) : List Nat → List Nat
  | [] => [c]
  | k :: rest =>
    if c < k then c :: k :: rest
    else if c = k then c :: rest
    else k :: insertKey c rest

/-- The sequence insertion walk acts on keys as `insertKey`. -/
theorem seqKeys_insertSeq (c cb : Nat) : ∀ hs : List SeqHandler,
    seqKeys (insertSeq c cb hs) = insertKey c (seqKeys hs)
  | [] => rfl
  | s :: rest => by
    have ih := seqKeys_insertSeq c cb rest
    simp only [seqKeys] at ih
    by_cases h1 : c < s.clicks
    · simp [insertSeq, insertKey, seqKeys, h1]
    · by_cases h2 : c = s.clicks <;>
        simp [insertSeq, insertKey, seqKeys, h1, h2, ih]

/-- The long-press insertion walk acts on keys as `insertKey`. -/
theorem lpKeys_insertLP (d cb : Nat) : ∀ hs : List LPHandler,
    lpKeys (insertLP d cb hs) = insertKey d (lpKeys hs)
  | [] => rfl
  | l :: rest => by
    have ih := lpKeys_insertLP d cb rest
    simp only [lpKeys] at ih
    by_cases h1 : d < l.duration
    · simp [insertLP, insertKey, lpKeys, h1]
    · by_cases h2 : d = l.duration <;>
        simp [insertLP, insertKey, lpKeys, h1, h2, ih]

/-- Members of an `insertKey` result are the new key or old members. -/
theorem mem_insertKey {x c : Nat} : ∀ {l : List Nat},
    x ∈ insertKey c l → x = c ∨ x ∈ l := by
  intro l
  induction l with
  | nil => simp [insertKey]
  | cons k rest ih =>
    by_cases h1 : c < k
    · simp only [insertKey, if_pos h1]
      intro h
      rcases List.mem_cons.mp h with rfl | hm
      · simp
      · simp [hm]
    · by_cases h2 : c = k
      · simp only [insertKey, if_neg h1, if_pos h2]
        intro h
        rcases List.mem_cons.mp h with rfl | hm
        · simp
        · simp [hm]
      · simp only [insertKey, if_neg h1, if_neg h2]
        intro h
        rcases List.mem_cons.mp h with rfl | hm
        · simp
        · rcases ih hm with rfl | hm2
          · simp
          · simp [hm2]

/-- `insertKey` preserves strictly ascending order. -/
theorem insertKey_pairwise (c : Nat) : ∀ l : List Nat,
    List.Pairwise (· < ·) l → List.Pairwise (· < ·) (insertKey c l)
  | [], _ => by simp [insertKey]
  | k :: rest, hp => by
    rcases List.pairwise_cons.mp hp with ⟨hall, hrest⟩
    by_cases h1 : c < k
    · simp only [insertKey, if_pos h1]
      refine List.pairwise_cons.mpr ⟨?_, hp⟩
      intro x hx
      rcases List.mem_cons.mp hx with rfl | hx'
      · exact h1
      · exact Nat.lt_trans h1 (hall x hx')
    · by_cases h2 : c = k
      · simp only [insertKey, if_neg h1, if_pos h2]
        exact List.pairwise_cons.mpr ⟨fun x hx => h2 ▸ hall x hx, hrest⟩
      · simp only [insertKey, if_neg h1, if_neg h2]
        refine List.pairwise_cons.mpr
          ⟨?_, insertKey_pairwise c rest hrest⟩
        intro x hx
        rcases mem_insertKey hx with rfl | hx'
        · omega
        · exact hall x hx'

/-- Folding `max` over an `insertKey` result takes in the new key. -/
theorem insertKey_foldr_max (c : Nat) : ∀ l : List Nat,
    (insertKey c l).foldr max 0 = max c (l.foldr max 0)
  | [] => rfl
  | k :: rest => by
    by_cases h1 : c < k
    · simp [insertKey, h1]
    · by_cases h2 : c = k
      · simp only [insertKey, if_neg h1, if_pos h2, List.foldr_cons]
        omega
      · simp only [insertKey, if_neg h1, if_neg h2, List.foldr_cons,
          insertKey_foldr_max c rest]
        omega

/-- Inserting a key already present in a strictly ascending list leaves the
key list unchanged. -/
theorem insertKey_of_mem {c : Nat} : ∀ {l : List Nat},
    List.Pairwise (· < ·) l → c ∈ l → insertKey c l = l := by
  intro l
  induction l with
  | nil => simp
  | cons k rest ih =>
    intro hp hc
    rcases List.pairwise_cons.mp hp with ⟨hall, hrest⟩
    rcases List.mem_cons.mp hc with rfl | hc'
    · simp [insertKey]
    · have hk : k < c := hall c hc'
      have h1 : ¬ c < k := by omega
      have h2 : ¬ c = k := by omega
      simp [insertKey, h1, h2, ih hrest hc']

/-- The registration invariant: both handler collections are strictly
ascending in their key, and each "longest" field equals the maximum
registered key (0 when none). -/
def RegInv (b : Button) : Prop :=
  List.Pairwise (· < ·) (seqKeys b.sequence_handlers) ∧
  b.longest_sequence = (seqKeys b.sequence_handlers).foldr max 0 ∧
  List.Pairwise (· < ·) (lpKeys b.long_press_handlers) ∧
  b.longest_long_press = (lpKeys b.long_press_handlers).foldr max 0

/-- `onSequence` preserves the registration invariant. -/
theorem RegInv_onSequence (c cb : Nat) (b : Button) (h : RegInv b) :
    RegInv (onSequence c cb b) := by
  obtain ⟨h1, h2, h3, h4⟩ := h
  unfold onSequence RegInv
  dsimp only
  constructor
  · split <;> simp [seqKeys_insertSeq, insertKey_pairwise _ _ h1]
  refine ⟨?_, ?_, ?_⟩
  · split <;> rename_i hlt <;>
      simp only [seqKeys_insertSeq, insertKey_foldr_max] <;> omega
  · split <;> simpa using h3
  · split <;> simpa using h4

/-- `onLongPress` preserves the registration invariant. -/
theorem RegInv_onLongPress (d cb : Nat) (b : Button) (h : RegInv b) :
    RegInv (onLongPress d cb b) := by
  obtain ⟨h1, h2, h3, h4⟩ := h
  unfold onLongPress RegInv
  dsimp only
  refine ⟨?_, ?_, ?_, ?_⟩
  · split <;> simpa using h1
  · split <;> simpa using h2
  · split <;> simp [lpKeys_insertLP, insertKey_pairwise _ _ h3]
  · split <;> rename_i hlt <;>
      simp only [lpKeys_insertLP, insertKey_foldr_max] <;> omega

/-- Any sequence of registration calls preserves the invariant. -/
theorem RegInv_applyRegs : ∀ (regs : List Reg) (b : Button), RegInv b →
    RegInv (applyRegs regs b)
  | [], _, h => h
  | Reg.seq c cb :: rest, b, h =>
    RegInv_applyRegs rest _ (RegInv_onSequence c cb b h)
  | Reg.lp d cb :: rest, b, h =>
    RegInv_applyRegs rest _ (RegInv_onLongPress d cb b h)

/-- A freshly constructed button satisfies the registration invariant. -/
theorem RegInv_mkButton (inv pu ls : Bool) : RegInv (mkButton inv pu ls) := by
  refine ⟨?_, ?_, ?_, ?_⟩ <;> simp [mkButton, seqKeys, lpKeys]

/-- Every member of a list is at most its `max` fold. -/
theorem le_foldr_max {x : Nat} : ∀ {l : List Nat}, x ∈ l →
    x ≤ l.foldr max 0 := by
  intro l
  induction l with
  | nil => simp
  | cons k rest ih =>
    intro h
    rcases List.mem_cons.mp h with rfl | hm
    · simp
    · simp only [List.foldr_cons]
      exact Nat.le_trans (ih hm) (Nat.le_max_right _ _)

/-- The handler just registered is present after the sequence insertion. -/
theorem mem_insertSeq (c cb : Nat) : ∀ hs : List SeqHandler,
    (⟨c, cb⟩ : SeqHandler) ∈ insertSeq c cb hs
  | [] => by simp [insertSeq]
  | s :: rest => by
    by_cases h1 : c < s.clicks
    · simp [insertSeq, h1]
    · by_cases h2 : c = s.clicks <;>
        simp [insertSeq, h1, h2, mem_insertSeq c cb rest]

/-- The handler just registered is present after the long-press insertion. -/
theorem mem_insertLP (d cb : Nat) : ∀ hs : List LPHandler,
    (⟨d, cb⟩ : LPHandler) ∈ insertLP d cb hs
  | [] => by simp [insertLP]
  | l :: rest => by
    by_cases h1 : d < l.duration
    · simp [insertLP, h1]
    · by_cases h2 : d = l.duration <;>
        simp [insertLP, h1, h2, mem_insertLP d cb rest]

/-- C8: after any sequence of registrations on a fresh button both handler
collections are strictly ascending in their key (hence hold at most one
entry per key) and each "longest" field equals the maximum registered key;
under that invariant every registered key is at most the "longest" field;
registering an already-present key leaves the key list — length and order —
untouched (the callback is replaced in place); and each call leaves the
registered handler reachable in the collection while setting "longest" to
the maximum of its old value and the new key. -/
theorem registration_invariants :
    (∀ (regs : List Reg) (inv pu ls : Bool),
      RegInv (applyRegs regs (mkButton inv pu ls))) ∧
    (∀ b : Button, RegInv b →
      (∀ h ∈ b.sequence_handlers, h.clicks ≤ b.longest_sequence) ∧
      (∀ h ∈ b.long_press_handlers, h.duration ≤ b.longest_long_press) ∧
      (seqKeys b.sequence_handlers).Nodup ∧
      (lpKeys b.long_press_handlers).Nodup) ∧
    (∀ (b : Button) (c cb : Nat),
      List.Pairwise (· < ·) (seqKeys b.sequence_handlers) →
      c % 256 ∈ seqKeys b.sequence_handlers →
      seqKeys (onSequence c cb b).sequence_handlers =
        seqKeys b.sequence_handlers) ∧
    (∀ (b : Button) (d cb : Nat),
      List.Pairwise (· < ·) (lpKeys b.long_press_handlers) →
      d % 65536 ∈ lpKeys b.long_press_handlers →
      lpKeys (onLongPress d cb b).long_press_handlers =
        lpKeys b.long_press_handlers) ∧
    (∀ (b : Button) (c cb : Nat),
      (⟨c % 256, cb⟩ : SeqHandler) ∈ (onSequence c cb b).sequence_handlers ∧
      (onSequence c cb b).longest_sequence =
        max b.longest_sequence (c % 256)) ∧
    (∀ (b : Button) (d cb : Nat),
      (⟨d % 65536, cb⟩ : LPHandler) ∈
        (onLongPress d cb b).long_press_handlers ∧
      (onLongPress d cb b).longest_long_press =
        max b.longest_long_press (d % 65536)) := by
  refine ⟨?_, ?_, ?_, ?_, ?_, ?_⟩
  · intro regs inv pu ls
    exact RegInv_applyRegs regs _ (RegInv_mkButton inv pu ls)
  · intro b hb
    obtain ⟨h1, h2, h3, h4⟩ := hb
    refine ⟨?_, ?_, ?_, ?_⟩
    · intro h hm
      rw [h2]
      exact le_foldr_max (List.mem_map_of_mem SeqHandler.clicks hm)
    · intro h hm
      rw [h4]
      exact le_foldr_max (List.mem_map_of_mem LPHandler.duration hm)
    · exact h1.imp Nat.ne_of_lt
    · exact h3.imp Nat.ne_of_lt
  · intro b c cb hp hm
    unfold onSequence
    dsimp only
    split <;> simp [seqKeys_insertSeq, insertKey_of_mem hp hm]
  · intro b d cb hp hm
    unfold onLongPress
    dsimp only
    split <;> simp [lpKeys_insertLP, insertKey_of_mem hp hm]
  · intro b c cb
    constructor
    · unfold onSequence
      dsimp only
      split <;> simpa using mem_insertSeq (c % 256) cb b.sequence_handlers
    · unfold onSequence
      dsimp only
      split <;> rename_i hlt <;> dsimp only <;> omega
  · intro b d cb
    constructor
    · unfold onLongPress
      dsimp only
      split <;> simpa using mem_insertLP (d % 65536) cb b.long_press_handlers
    · unfold onLongPress
      dsimp only
      split <;> rename_i hlt <;> dsimp only <;> omega

/-- The button of the C8 witness: sequence handlers at counts 1 and 3. -/
def bC8 : Button :=
  { mkButton false true false with
    sequence_handlers := [⟨1, 4⟩, ⟨3, 6⟩], longest_sequence := 3 }

/-- C8 witness: the registration theorem instantiated on a concrete
registration run and on re-registering the existing count 3 on `bC8`. -/
theorem registration_invariants_witness :
    RegInv (applyRegs [Reg.seq 1 4, Reg.lp 1000 5, Reg.seq 3 6]
      (mkButton false true false)) ∧
    seqKeys (onSequence 3 9 bC8).sequence_handlers =
      seqKeys bC8.sequence_handlers ∧
    (⟨3 % 256, 9⟩ : SeqHandler) ∈ (onSequence 3 9 bC8).sequence_handlers :=
  ⟨registration_invariants.1 _ false true false,
    registration_invariants.2.2.1 bC8 3 9 (by decide) (by decide),
    (registration_invariants.2.2.2.2.1 bC8 3 9).1⟩
